import Mathlib

/-!
Shallow embedding of `src/parseM3U.js` — a defensive single-pass M3U playlist
parser.  The JavaScript source walks the input line by line, keeps at most one
pending channel, and collects finished channel records plus advisory warnings.
All string primitives used by the source (`split('\n')`, `trim`, `startsWith`,
`substring`, `lastIndexOf`, `toLowerCase`, the attribute regex) are embedded
here as executable functions over `List Char` / `String`.
-/

namespace M3U

/-- Embeds JS `s.split('\n')` : cut at every newline, keeping empty pieces.
`acc` holds the characters of the current piece in reverse. -/
def splitNlAux : List Char → List Char → List String
  | [], acc => [String.mk acc.reverse]
  | c :: rest, acc =>
      if c = '\n' then String.mk acc.reverse :: splitNlAux rest []
      else splitNlAux rest (c :: acc)

def splitLines (s : String) : List String :=
  splitNlAux s.data []

/-- Embeds JS `String.prototype.trim` (ASCII whitespace). -/
def trimChars (cs : List Char) : List Char :=
  ((cs.dropWhile Char.isWhitespace).reverse.dropWhile Char.isWhitespace).reverse

def trimStr (s : String) : String :=
  String.mk (trimChars s.data)

/-- Embeds JS `s.startsWith(p)`. -/
def startsWithStr (s p : String) : Bool :=
  p.data.isPrefixOf s.data

/-- Embeds JS `s.substring(n)` (drop the first `n` characters). -/
def dropStr (n : Nat) (s : String) : String :=
  String.mk (s.data.drop n)

/-- Embeds JS `s.toLowerCase()` for the ASCII keys produced by the
attribute regex. -/
def lowerStr (s : String) : String :=
  String.mk (s.data.map Char.toLower)

/-- Embeds JS `infoLine.lastIndexOf(',')` together with the two
`substring` calls around it: splits `cs` at its **last** comma, returning
the part before and the part after, or `none` when no comma occurs. -/
def splitAtLastComma : List Char → Option (List Char × List Char)
  | [] => none
  | c :: rest =>
      match splitAtLastComma rest with
      | some (b, a) => some (c :: b, a)
      | none => if c = ',' then some ([], rest) else none

/-- Character class of the attribute regex key part `[a-zA-Z0-9_-]`. -/
def isKeyChar (c : Char) : Bool :=
  c.isAlpha || c.isDigit || c = '_' || c = '-'

/-- One attempt of the attribute regex `([a-zA-Z0-9_-]+)="([^"]*)"` at the
current position: a non-empty run of key characters, then `="`, then the
value up to the next quote, then the closing quote.  Returns the key, the
value, and the remaining characters after the match. -/
def tryMatchAt (cs : List Char) : Option (String × String × List Char) :=
  let key := cs.takeWhile isKeyChar
  let rest := cs.dropWhile isKeyChar
  if key = [] then none
  else
    match rest with
    | '=' :: '"' :: rest2 =>
        let v := rest2.takeWhile (fun c => c ≠ '"')
        match rest2.dropWhile (fun c => c ≠ '"') with
        | '"' :: rest4 => some (String.mk key, String.mk v, rest4)
        | _ => none
    | _ => none

/-- Embeds the JS `while ((match = attributeRegex.exec(...)) !== null)` loop:
successive non-overlapping matches, scanning left to right.  The fuel
argument (initialised to the input length, which bounds the number of
steps) makes the recursion structural. -/
def scanAttrsAux : Nat → List Char → List (String × String)
  | 0, _ => []
  | _ + 1, [] => []
  | fuel + 1, c :: rest =>
      match tryMatchAt (c :: rest) with
      | some (k, v, rest4) => (k, v) :: scanAttrsAux fuel rest4
      | none => scanAttrsAux fuel rest

def scanAttrs (cs : List Char) : List (String × String) :=
  scanAttrsAux cs.length cs

/-- A finished channel record, as pushed onto `parsedChannels`. -/
structure Channel where
  name : String
  tvgId : String
  tvgName : String
  logo : String
  group : String
  url : String
deriving DecidableEq

/-- The transient `currentChannel` object (before its `rawExtInf` field is
deleted on completion).  While pending, `url` is always the empty string. -/
structure PendingChannel where
  name : String
  tvgId : String
  tvgName : String
  logo : String
  group : String
  url : String
  rawExtInf : String
deriving DecidableEq

/-- The `console.warn` diagnostics of the source, as structured values. -/
inductive Diag where
  | missingHeader
  | discardingPrev (name : String)
  | malformedExtinf (line : String)
  | urlWithoutExtinf (line : String)
  | directiveBeforeUrl (line : String) (name : String)
  | lastChannelMissingUrl (raw : String)
  | zeroChannels
deriving DecidableEq

/-- The loop state: the accumulated `parsedChannels`, the `currentChannel`
slot, and the warnings emitted so far. -/
structure ParseState where
  channels : List Channel
  current : Option PendingChannel
  diags : List Diag
deriving DecidableEq

/-- Embeds the attribute `switch`: lower-case the key and assign recognized
keys to their field; any other key leaves the channel unchanged. -/
def applyAttr (c : PendingChannel) (kv : String × String) : PendingChannel :=
  let key := lowerStr kv.1
  let value := kv.2
  if key = "tvg-id" then { c with tvgId := value }
  else if key = "tvg-name" then { c with tvgName := value }
  else if key = "tvg-logo" then { c with logo := value }
  else if key = "group-title" then { c with group := value }
  else c

def applyAttrs (c : PendingChannel) (attrs : List (String × String)) : PendingChannel :=
  attrs.foldl applyAttr c

/-- Embeds the JS placeholder test `name.match(/^Channel\s*\d+$/i)`:
"Channel" case-insensitively, then optional whitespace, then one or more
digits, anchored at both ends. -/
def stripCI : List Char → List Char → Option (List Char)
  | [], cs => some cs
  | _ :: _, [] => none
  | p :: ps, c :: cs => if c.toLower = p then stripCI ps cs else none

def matchesChannelNum (s : String) : Bool :=
  match stripCI ['c', 'h', 'a', 'n', 'n', 'e', 'l'] s.data with
  | none => false
  | some rest =>
      let digits := rest.dropWhile Char.isWhitespace
      !digits.isEmpty && digits.all Char.isDigit

/-- Building the pending channel from a successfully split `#EXTINF:` line:
provisional name is the trimmed text after the last comma, attributes are
scanned from the trimmed text before it.  `line` is the trimmed source line
(stored as `rawExtInf`). -/
def extinfBase (line : String) (bef aft : List Char) : PendingChannel :=
  applyAttrs
    { name := trimStr (String.mk aft), tvgId := "", tvgName := "", logo := "",
      group := "", url := "", rawExtInf := line }
    (scanAttrs (trimStr (String.mk bef)).data)

/-- Embeds the two name-normalization steps that follow attribute
extraction: prefer `tvgName` over an empty or placeholder name, then
synthesize `"Unnamed Channel {n}"` if the name is still empty.
`emittedCount` is `parsedChannels.length` at this point. -/
def normName (emittedCount : Nat) (c1 : PendingChannel) : PendingChannel :=
  let c2 :=
    if (c1.name = "" ∨ matchesChannelNum c1.name = true) ∧ c1.tvgName ≠ "" then
      { c1 with name := c1.tvgName }
    else c1
  if c2.name = "" then
    { c2 with name := "Unnamed Channel " ++ toString (emittedCount + 1) }
  else c2

/-- Completing a pending channel on a URL line: assign `url`, drop
`rawExtInf` (the JS `delete`), push. -/
def finalize (c : PendingChannel) (url : String) : Channel :=
  { name := c.name, tvgId := c.tvgId, tvgName := c.tvgName, logo := c.logo,
    group := c.group, url := url }

/-- The minimal record synthesized for a URL line with no pending channel.
`count` is `parsedChannels.length` before the push. -/
def basicEntry (count : Nat) (line : String) : Channel :=
  { name := "Channel " ++ toString (count + 1), url := line, tvgId := "",
    tvgName := "", logo := "", group := "" }

/-- The warnings present after the `#EXTINF:` branch's first step: discarding
a pending channel that is missing its URL. -/
def discardDiags (st : ParseState) : List Diag :=
  match st.current with
  | some c => if c.url = "" then st.diags ++ [Diag.discardingPrev c.name] else st.diags
  | none => st.diags

/-- One iteration of the source's `for` loop over lines. -/
def processLine (st : ParseState) (rawLine : String) : ParseState :=
  let line := trimStr rawLine
  if startsWithStr line "#EXTINF:" then
    let diags1 := discardDiags st
    let infoLine := trimStr (dropStr 8 line)
    match splitAtLastComma infoLine.data with
    | none =>
        { st with current := none, diags := diags1 ++ [Diag.malformedExtinf line] }
    | some (bef, aft) =>
        { st with current := some (normName st.channels.length (extinfBase line bef aft)),
                  diags := diags1 }
  else
    match st.current with
    | some c =>
        if line ≠ "" ∧ ¬ startsWithStr line "#" then
          { st with channels := st.channels ++ [finalize c line], current := none }
        else if startsWithStr line "#" ∧ line ≠ "#EXTM3U" ∧ c.url = "" then
          { st with current := none,
                    diags := st.diags ++ [Diag.directiveBeforeUrl line c.name] }
        else st
    | none =>
        if line ≠ "" ∧ ¬ startsWithStr line "#" then
          { st with channels := st.channels ++ [basicEntry st.channels.length line],
                    diags := st.diags ++ [Diag.urlWithoutExtinf line] }
        else st

/-- Embeds the header check `if (!lines[0] || !lines[0].trim().startsWith('#EXTM3U'))`. -/
def initDiags (lines : List String) : List Diag :=
  match lines with
  | [] => [Diag.missingHeader]
  | l0 :: _ =>
      if l0 = "" ∨ ¬ startsWithStr (trimStr l0) "#EXTM3U" then [Diag.missingHeader]
      else []

def initState (lines : List String) : ParseState :=
  { channels := [], current := none, diags := initDiags lines }

/-- The loop state after all lines of the input were processed. -/
def finState (m3uText : String) : ParseState :=
  (splitLines m3uText).foldl processLine (initState (splitLines m3uText))

/-- Embeds `parseM3U`: the returned channel list paired with the warnings
(the source's `console.warn` side channel).  After the loop, a pending
channel without URL yields one last warning, and a zero-channel result from
multi-line input yields another. -/
def parseM3U (m3uText : String) : List Channel × List Diag :=
  let lines := splitLines m3uText
  let fin := finState m3uText
  let d1 :=
    match fin.current with
    | some c =>
        if c.url = "" then fin.diags ++ [Diag.lastChannelMissingUrl c.rawExtInf]
        else fin.diags
    | none => fin.diags
  let d2 :=
    if fin.channels.length = 0 ∧ lines.length > 1 then d1 ++ [Diag.zeroChannels]
    else d1
  (fin.channels, d2)

/-- Spec-side definition of the name fallback chain of §4.3 / §8 of the
specification, written from the spec's words for comparison with the
code-side `normName`: tvg-name replaces an empty or placeholder provisional
name; a name still empty afterwards becomes `"Unnamed Channel {n}"` with
`n` = emitted count + 1; otherwise the explicit name wins. -/
def nameFallbackSpec (provisional tvgName : String) (emittedCount : Nat) : String :=
  let afterTvg :=
    if (provisional = "" ∨ matchesChannelNum provisional = true) ∧ tvgName ≠ "" then tvgName
    else provisional
  if afterTvg = "" then "Unnamed Channel " ++ toString (emittedCount + 1)
  else afterTvg

/-- The value of the last (rightmost) occurrence in `attrs` of a key whose
lower-casing equals `k`, if any. -/
def lastValueFor (k : String) : List (String × String) → Option String
  | [] => none
  | (k', v) :: rest =>
      match lastValueFor k rest with
      | some w => some w
      | none => if lowerStr k' = k then some v else none

/-- The records appended to the output by one loop iteration. -/
def emittedAt (st : ParseState) (rawLine : String) : List Channel :=
  (processLine st rawLine).channels.drop st.channels.length

/-! ### Helper lemmas -/

theorem data_append (s t : String) : (s ++ t).data = s.data ++ t.data := by
  cases s; cases t; rfl

theorem append_ne_empty (s t : String) (h : s.data ≠ []) : s ++ t ≠ "" := by
  intro heq
  apply h
  have hd := congrArg String.data heq
  rw [data_append] at hd
  exact List.append_eq_nil.mp hd |>.1

theorem startsWith_hash_of_extinf (s : String)
    (h : startsWithStr s "#EXTINF:" = true) : startsWithStr s "#" = true := by
  rw [startsWithStr, List.isPrefixOf_iff_prefix] at h ⊢
  exact List.IsPrefix.trans ⟨['E', 'X', 'T', 'I', 'N', 'F', ':'], rfl⟩ h

theorem not_extinf_of_not_hash (s : String)
    (h : startsWithStr s "#" = false) : startsWithStr s "#EXTINF:" = false := by
  cases hx : startsWithStr s "#EXTINF:" with
  | false => rfl
  | true => rw [startsWith_hash_of_extinf s hx] at h; exact absurd h (by simp)

theorem processLine_extinf_none (st : ParseState) (rawLine : String)
    (h1 : startsWithStr (trimStr rawLine) "#EXTINF:" = true)
    (h2 : splitAtLastComma (trimStr (dropStr 8 (trimStr rawLine))).data = none) :
    processLine st rawLine =
      { st with current := none,
                diags := discardDiags st ++ [Diag.malformedExtinf (trimStr rawLine)] } := by
  simp only [processLine, h1, if_true, h2]

theorem processLine_extinf_some (st : ParseState) (rawLine : String) (bef aft : List Char)
    (h1 : startsWithStr (trimStr rawLine) "#EXTINF:" = true)
    (h2 : splitAtLastComma (trimStr (dropStr 8 (trimStr rawLine))).data = some (bef, aft)) :
    processLine st rawLine =
      { st with
          current := some (normName st.channels.length (extinfBase (trimStr rawLine) bef aft)),
          diags := discardDiags st } := by
  simp only [processLine, h1, if_true, h2]

theorem processLine_pending_content (st : ParseState) (c : PendingChannel) (rawLine : String)
    (hcur : st.current = some c) (hne : trimStr rawLine ≠ "")
    (hnh : startsWithStr (trimStr rawLine) "#" = false) :
    processLine st rawLine =
      { st with channels := st.channels ++ [finalize c (trimStr rawLine)], current := none } := by
  have h1 : startsWithStr (trimStr rawLine) "#EXTINF:" = false := not_extinf_of_not_hash _ hnh
  simp only [processLine, h1, Bool.false_eq_true, if_false, hcur, hne, hnh, ne_eq,
    not_false_eq_true, and_self, if_true, not_false_iff]

theorem processLine_pending_directive (st : ParseState) (c : PendingChannel) (rawLine : String)
    (hcur : st.current = some c)
    (hni : startsWithStr (trimStr rawLine) "#EXTINF:" = false)
    (hh : startsWithStr (trimStr rawLine) "#" = true)
    (hne : trimStr rawLine ≠ "#EXTM3U") (hurl : c.url = "") :
    processLine st rawLine =
      { st with current := none,
                diags := st.diags ++ [Diag.directiveBeforeUrl (trimStr rawLine) c.name] } := by
  simp only [processLine, hni, Bool.false_eq_true, if_false, hcur, hh, hne, hurl, ne_eq,
    not_true_eq_false, and_false, false_and, and_true, and_self, if_false, if_true,
    not_false_eq_true, true_and]

theorem processLine_pending_kept (st : ParseState) (c : PendingChannel) (rawLine : String)
    (hcur : st.current = some c)
    (h : trimStr rawLine = "" ∨ trimStr rawLine = "#EXTM3U") :
    processLine st rawLine = st := by
  cases h with
  | inl h =>
      have e1 : startsWithStr "" "#EXTINF:" = false := rfl
      have e2 : startsWithStr "" "#" = false := rfl
      simp [processLine, h, hcur, e1, e2]
  | inr h =>
      have e1 : startsWithStr "#EXTM3U" "#EXTINF:" = false := rfl
      have e2 : startsWithStr "#EXTM3U" "#" = true := rfl
      simp [processLine, h, hcur, e1, e2]

theorem processLine_pending_directive_hasUrl (st : ParseState) (c : PendingChannel)
    (rawLine : String) (hcur : st.current = some c)
    (hni : startsWithStr (trimStr rawLine) "#EXTINF:" = false)
    (hh : startsWithStr (trimStr rawLine) "#" = true)
    (hurl : ¬ c.url = "") :
    processLine st rawLine = st := by
  simp only [processLine, hni, Bool.false_eq_true, if_false, hcur, hh, hurl, ne_eq,
    not_true_eq_false, and_false, false_and, if_false]

theorem processLine_idle_content (st : ParseState) (rawLine : String)
    (hcur : st.current = none) (hne : trimStr rawLine ≠ "")
    (hnh : startsWithStr (trimStr rawLine) "#" = false) :
    processLine st rawLine =
      { st with channels := st.channels ++ [basicEntry st.channels.length (trimStr rawLine)],
                diags := st.diags ++ [Diag.urlWithoutExtinf (trimStr rawLine)] } := by
  have h1 : startsWithStr (trimStr rawLine) "#EXTINF:" = false := not_extinf_of_not_hash _ hnh
  simp only [processLine, h1, Bool.false_eq_true, if_false, hcur, hne, hnh, ne_eq,
    not_false_eq_true, and_self, if_true]

theorem processLine_idle_noncontent (st : ParseState) (rawLine : String)
    (hcur : st.current = none)
    (hni : startsWithStr (trimStr rawLine) "#EXTINF:" = false)
    (h : trimStr rawLine = "" ∨ startsWithStr (trimStr rawLine) "#" = true) :
    processLine st rawLine = st := by
  cases h with
  | inl h =>
      have e1 : startsWithStr "" "#EXTINF:" = false := rfl
      simp [processLine, h, hcur, e1]
  | inr h =>
      simp only [processLine, hni, Bool.false_eq_true, if_false, hcur, h, ne_eq,
        not_true_eq_false, and_false, if_false]

theorem applyAttr_tvgId (c : PendingChannel) (k v : String) :
    (applyAttr c (k, v)).tvgId = if lowerStr k = "tvg-id" then v else c.tvgId := by
  simp only [applyAttr]
  split_ifs <;> rfl

theorem applyAttr_tvgName (c : PendingChannel) (k v : String) :
    (applyAttr c (k, v)).tvgName = if lowerStr k = "tvg-name" then v else c.tvgName := by
  simp only [applyAttr]
  split_ifs <;> simp_all

theorem applyAttr_logo (c : PendingChannel) (k v : String) :
    (applyAttr c (k, v)).logo = if lowerStr k = "tvg-logo" then v else c.logo := by
  simp only [applyAttr]
  split_ifs <;> simp_all

theorem applyAttr_group (c : PendingChannel) (k v : String) :
    (applyAttr c (k, v)).group = if lowerStr k = "group-title" then v else c.group := by
  simp only [applyAttr]
  split_ifs <;> simp_all

theorem applyAttr_name (c : PendingChannel) (kv : String × String) :
    (applyAttr c kv).name = c.name := by
  simp only [applyAttr]
  split_ifs <;> rfl

theorem applyAttrs_name (c : PendingChannel) (attrs : List (String × String)) :
    (applyAttrs c attrs).name = c.name := by
  induction attrs generalizing c with
  | nil => rfl
  | cons kv rest ih =>
      simp only [applyAttrs, List.foldl_cons] at *
      rw [ih (applyAttr c kv), applyAttr_name]

theorem splitAtLastComma_eq_none_iff (cs : List Char) :
    splitAtLastComma cs = none ↔ ',' ∉ cs := by
  induction cs with
  | nil => simp [splitAtLastComma]
  | cons c rest ih =>
      simp only [splitAtLastComma]
      cases h : splitAtLastComma rest with
      | some p =>
          have : ',' ∈ rest := by
            by_contra hmem
            rw [ih.mpr hmem] at h
            exact Option.noConfusion h
          simp [this]
      | none =>
          have hrest : ',' ∉ rest := ih.mp h
          by_cases hc : c = ','
          · simp [hc]
          · simp [hc, hrest, Ne.symm hc]

theorem splitAtLastComma_eq_some (cs b a : List Char)
    (h : splitAtLastComma cs = some (b, a)) : cs = b ++ ',' :: a ∧ ',' ∉ a := by
  induction cs generalizing b a with
  | nil => exact Option.noConfusion h
  | cons c rest ih =>
      simp only [splitAtLastComma] at h
      cases hr : splitAtLastComma rest with
      | some p =>
          obtain ⟨b', a'⟩ := p
          rw [hr] at h
          injection h with h
          injection h with hb ha
          obtain ⟨hcs, hna⟩ := ih b' a' hr
          subst hb; subst ha
          exact ⟨by rw [hcs]; rfl, hna⟩
      | none =>
          rw [hr] at h
          by_cases hc : c = ','
          · rw [if_pos hc] at h
            injection h with h
            injection h with hb ha
            subst hb; subst ha; subst hc
            exact ⟨rfl, (splitAtLastComma_eq_none_iff rest).mp hr⟩
          · rw [if_neg hc] at h
            exact Option.noConfusion h

theorem normName_name_ne (count : Nat) (c1 : PendingChannel) :
    (normName count c1).name ≠ "" := by
  simp only [normName]
  split_ifs with h1 h2 h3 <;>
    first
      | exact append_ne_empty "Unnamed Channel " _ (by decide)
      | simp_all

theorem discardDiags_mono (st : ParseState) :
    ∃ ds, discardDiags st = st.diags ++ ds ∧ Diag.missingHeader ∉ ds := by
  unfold discardDiags
  cases st.current with
  | none => exact ⟨[], by simp⟩
  | some c =>
      by_cases h : c.url = ""
      · exact ⟨[Diag.discardingPrev c.name], by simp [h]⟩
      · exact ⟨[], by simp [h]⟩

theorem processLine_diags_mono (st : ParseState) (rawLine : String) :
    ∃ ds, (processLine st rawLine).diags = st.diags ++ ds ∧ Diag.missingHeader ∉ ds := by
  obtain ⟨ds, hds, hn⟩ := discardDiags_mono st
  cases h1 : startsWithStr (trimStr rawLine) "#EXTINF:" with
  | true =>
      cases h2 : splitAtLastComma (trimStr (dropStr 8 (trimStr rawLine))).data with
      | none =>
          rw [processLine_extinf_none st rawLine h1 h2]
          exact ⟨ds ++ [Diag.malformedExtinf (trimStr rawLine)],
            by simp [hds, List.append_assoc], by simp [hn]⟩
      | some p =>
          obtain ⟨bef, aft⟩ := p
          rw [processLine_extinf_some st rawLine bef aft h1 h2]
          exact ⟨ds, hds, hn⟩
  | false =>
      cases hcur : st.current with
      | some c =>
          cases hh : startsWithStr (trimStr rawLine) "#" with
          | true =>
              by_cases hm : trimStr rawLine = "#EXTM3U"
              · rw [processLine_pending_kept st c rawLine hcur (Or.inr hm)]
                exact ⟨[], by simp⟩
              · by_cases hurl : c.url = ""
                · rw [processLine_pending_directive st c rawLine hcur h1 hh hm hurl]
                  exact ⟨[Diag.directiveBeforeUrl (trimStr rawLine) c.name], by simp, by simp⟩
                · rw [processLine_pending_directive_hasUrl st c rawLine hcur h1 hh hurl]
                  exact ⟨[], by simp⟩
          | false =>
              by_cases hbl : trimStr rawLine = ""
              · rw [processLine_pending_kept st c rawLine hcur (Or.inl hbl)]
                exact ⟨[], by simp⟩
              · rw [processLine_pending_content st c rawLine hcur hbl hh]
                exact ⟨[], by simp⟩
      | none =>
          cases hh : startsWithStr (trimStr rawLine) "#" with
          | true =>
              rw [processLine_idle_noncontent st rawLine hcur h1 (Or.inr hh)]
              exact ⟨[], by simp⟩
          | false =>
              by_cases hbl : trimStr rawLine = ""
              · rw [processLine_idle_noncontent st rawLine hcur h1 (Or.inl hbl)]
                exact ⟨[], by simp⟩
              · rw [processLine_idle_content st rawLine hcur hbl hh]
                exact ⟨[Diag.urlWithoutExtinf (trimStr rawLine)], by simp, by simp⟩

theorem foldl_diags_mono (lines : List String) (st : ParseState) :
    ∃ ds, (lines.foldl processLine st).diags = st.diags ++ ds ∧ Diag.missingHeader ∉ ds := by
  induction lines generalizing st with
  | nil => exact ⟨[], by simp⟩
  | cons l rest ih =>
      obtain ⟨ds1, h1, hn1⟩ := processLine_diags_mono st l
      obtain ⟨ds2, h2, hn2⟩ := ih (processLine st l)
      refine ⟨ds1 ++ ds2, ?_, ?_⟩
      · rw [List.foldl_cons, h2, h1, List.append_assoc]
      · simp [hn1, hn2]

theorem processLine_preserves_ok (st : ParseState) (rawLine : String)
    (hch : ∀ c ∈ st.channels, c.name ≠ "" ∧ c.url ≠ "")
    (hpend : ∀ p, st.current = some p → p.name ≠ "") :
    (∀ c ∈ (processLine st rawLine).channels, c.name ≠ "" ∧ c.url ≠ "") ∧
    (∀ p, (processLine st rawLine).current = some p → p.name ≠ "") := by
  cases h1 : startsWithStr (trimStr rawLine) "#EXTINF:" with
  | true =>
      cases h2 : splitAtLastComma (trimStr (dropStr 8 (trimStr rawLine))).data with
      | none =>
          rw [processLine_extinf_none st rawLine h1 h2]
          exact ⟨hch, by simp⟩
      | some p =>
          obtain ⟨bef, aft⟩ := p
          rw [processLine_extinf_some st rawLine bef aft h1 h2]
          refine ⟨hch, fun p hp => ?_⟩
          simp only [Option.some.injEq] at hp
          rw [← hp]
          exact normName_name_ne _ _
  | false =>
      cases hcur : st.current with
      | some c =>
          cases hh : startsWithStr (trimStr rawLine) "#" with
          | true =>
              by_cases hm : trimStr rawLine = "#EXTM3U"
              · rw [processLine_pending_kept st c rawLine hcur (Or.inr hm)]
                exact ⟨hch, hpend⟩
              · by_cases hurl : c.url = ""
                · rw [processLine_pending_directive st c rawLine hcur h1 hh hm hurl]
                  exact ⟨hch, by simp⟩
                · rw [processLine_pending_directive_hasUrl st c rawLine hcur h1 hh hurl]
                  exact ⟨hch, hpend⟩
          | false =>
              by_cases hbl : trimStr rawLine = ""
              · rw [processLine_pending_kept st c rawLine hcur (Or.inl hbl)]
                exact ⟨hch, hpend⟩
              · rw [processLine_pending_content st c rawLine hcur hbl hh]
                refine ⟨fun x hx => ?_, by simp⟩
                rcases List.mem_append.mp hx with hx | hx
                · exact hch x hx
                · rw [List.mem_singleton.mp hx]
                  exact ⟨hpend c hcur, hbl⟩
      | none =>
          cases hh : startsWithStr (trimStr rawLine) "#" with
          | true =>
              rw [processLine_idle_noncontent st rawLine hcur h1 (Or.inr hh)]
              exact ⟨hch, hpend⟩
          | false =>
              by_cases hbl : trimStr rawLine = ""
              · rw [processLine_idle_noncontent st rawLine hcur h1 (Or.inl hbl)]
                exact ⟨hch, hpend⟩
              · rw [processLine_idle_content st rawLine hcur hbl hh]
                refine ⟨fun x hx => ?_, fun p hp => hpend p (by simpa using hp)⟩
                rcases List.mem_append.mp hx with hx | hx
                · exact hch x hx
                · rw [List.mem_singleton.mp hx]
                  exact ⟨append_ne_empty "Channel " _ (by decide), hbl⟩

theorem foldl_preserves_ok (lines : List String) (st : ParseState)
    (hch : ∀ c ∈ st.channels, c.name ≠ "" ∧ c.url ≠ "")
    (hpend : ∀ p, st.current = some p → p.name ≠ "") :
    (∀ c ∈ (lines.foldl processLine st).channels, c.name ≠ "" ∧ c.url ≠ "") ∧
    (∀ p, (lines.foldl processLine st).current = some p → p.name ≠ "") := by
  induction lines generalizing st with
  | nil => exact ⟨hch, hpend⟩
  | cons l rest ih =>
      obtain ⟨hch', hpend'⟩ := processLine_preserves_ok st l hch hpend
      exact ih (processLine st l) hch' hpend'

/-! ### Claim theorems -/

/-- Claim C1: for every input string, every record in the sequence returned by
`parseM3U` has a non-empty `name` and a non-empty `url`. -/
theorem parseM3U_records_nonempty (s : String) (c : Channel)
    (hc : c ∈ (parseM3U s).1) : c.name ≠ "" ∧ c.url ≠ "" := by
  have h := foldl_preserves_ok (splitLines s) (initState (splitLines s))
    (by simp [initState]) (by simp [initState])
  exact h.1 c hc

/-- Witness for C1 at a concrete playlist with one finished channel. -/
theorem parseM3U_records_nonempty_witness :
    ({ name := "A", tvgId := "", tvgName := "", logo := "", group := "",
       url := "http://x" } : Channel) ∈ (parseM3U "#EXTM3U\n#EXTINF:-1,A\nhttp://x").1 ∧
    (({ name := "A", tvgId := "", tvgName := "", logo := "", group := "",
        url := "http://x" } : Channel).name ≠ "" ∧
     ({ name := "A", tvgId := "", tvgName := "", logo := "", group := "",
        url := "http://x" } : Channel).url ≠ "") :=
  ⟨by decide, parseM3U_records_nonempty "#EXTM3U\n#EXTINF:-1,A\nhttp://x" _ (by decide)⟩

/-- Claim C3 (counterexample): parsing the empty string does emit a
diagnostic — the missing-header warning — because the first line `""` fails
the header check, so the claim "no diagnostics at all" is false. -/
theorem parseM3U_empty_emits_diag : (parseM3U "").2 ≠ [] := by decide

/-- Claim C3 (amended): parsing the empty string returns the empty record
sequence and emits exactly one diagnostic, the missing-header warning. -/
theorem parseM3U_empty_result : parseM3U "" = ([], [Diag.missingHeader]) := by decide

/-- Claim C8: a content/URL line with no pending channel emits a diagnostic
and appends the minimal record `{name: "Channel {n}", url: line, empty
fields}` with `n` = emitted count + 1, leaving the state `Idle`. -/
theorem bare_url_synthesizes (st : ParseState) (rawLine : String)
    (hcur : st.current = none) (hne : trimStr rawLine ≠ "")
    (hnh : startsWithStr (trimStr rawLine) "#" = false) :
    processLine st rawLine =
      { st with
          channels := st.channels ++
            [{ name := "Channel " ++ toString (st.channels.length + 1),
               url := trimStr rawLine, tvgId := "", tvgName := "", logo := "",
               group := "" }],
          diags := st.diags ++ [Diag.urlWithoutExtinf (trimStr rawLine)] } ∧
    (processLine st rawLine).current = none := by
  have h := processLine_idle_content st rawLine hcur hne hnh
  refine ⟨by rw [h]; rfl, by rw [h]; exact hcur⟩

/-- Witness for C8 on the spec's bare-URL example. -/
theorem bare_url_synthesizes_witness :
    processLine { channels := [], current := none, diags := [] } "http://bare.url/stream" =
      { channels := [{ name := "Channel 1", url := "http://bare.url/stream",
                       tvgId := "", tvgName := "", logo := "", group := "" }],
        current := none,
        diags := [Diag.urlWithoutExtinf "http://bare.url/stream"] } ∧
    (processLine { channels := [], current := none, diags := [] }
        "http://bare.url/stream").current = none := by
  have h := bare_url_synthesizes { channels := [], current := none, diags := [] }
    "http://bare.url/stream" rfl (by decide) (by decide)
  exact ⟨h.1.trans (by decide), h.2⟩

/-- Claim C5: the attribute extractor splits the text after the `#EXTINF:`
prefix at its last comma — the trimmed text after the comma becomes the
provisional display name — and a directive without a comma is skipped with
a diagnostic, leaving no pending channel and the output untouched. -/
theorem extinf_last_comma_split :
    (∀ cs : List Char, splitAtLastComma cs = none ↔ ',' ∉ cs) ∧
    (∀ (cs b a : List Char), splitAtLastComma cs = some (b, a) →
        cs = b ++ ',' :: a ∧ ',' ∉ a) ∧
    (∀ (line : String) (bef aft : List Char),
        (extinfBase line bef aft).name = trimStr (String.mk aft)) ∧
    (∀ (st : ParseState) (rawLine : String),
        startsWithStr (trimStr rawLine) "#EXTINF:" = true →
        splitAtLastComma (trimStr (dropStr 8 (trimStr rawLine))).data = none →
        (processLine st rawLine).current = none ∧
        (processLine st rawLine).channels = st.channels ∧
        Diag.malformedExtinf (trimStr rawLine) ∈ (processLine st rawLine).diags) := by
  refine ⟨splitAtLastComma_eq_none_iff, splitAtLastComma_eq_some, ?_, ?_⟩
  · intro line bef aft
    simp only [extinfBase, applyAttrs_name]
  · intro st rawLine h1 h2
    rw [processLine_extinf_none st rawLine h1 h2]
    exact ⟨rfl, rfl, by simp⟩

/-- Witness for C5: a concrete last-comma split and the spec's
no-comma example directive being skipped. -/
theorem extinf_last_comma_split_witness :
    ("x,y".data = "x".data ++ ',' :: "y".data ∧ ',' ∉ "y".data) ∧
    ((processLine { channels := [], current := none, diags := [] }
        "#EXTINF:-1 no comma here").current = none ∧
     (processLine { channels := [], current := none, diags := [] }
        "#EXTINF:-1 no comma here").channels = [] ∧
     Diag.malformedExtinf "#EXTINF:-1 no comma here" ∈
       (processLine { channels := [], current := none, diags := [] }
         "#EXTINF:-1 no comma here").diags) := by
  have h2 := extinf_last_comma_split.2.1 "x,y".data "x".data "y".data (by decide)
  have h4 := extinf_last_comma_split.2.2.2 { channels := [], current := none, diags := [] }
    "#EXTINF:-1 no comma here" (by decide) (by decide)
  exact ⟨h2, h4.1, h4.2.1, h4.2.2⟩

/-- Claim C6: the name of the pending channel created by a well-formed
metadata directive follows the fallback chain — `tvgName` replaces an empty
or placeholder (`Channel<ws><digits>`, case-insensitive) provisional name
when `tvgName` is non-empty; a still-empty name becomes
`"Unnamed Channel {n}"` with `n` = emitted count + 1; otherwise the explicit
name wins. -/
theorem name_normalization_chain :
    (∀ (st : ParseState) (rawLine : String) (bef aft : List Char),
        startsWithStr (trimStr rawLine) "#EXTINF:" = true →
        splitAtLastComma (trimStr (dropStr 8 (trimStr rawLine))).data = some (bef, aft) →
        (processLine st rawLine).current =
          some (normName st.channels.length (extinfBase (trimStr rawLine) bef aft))) ∧
    (∀ (count : Nat) (c1 : PendingChannel),
        (normName count c1).name = nameFallbackSpec c1.name c1.tvgName count) := by
  constructor
  · intro st rawLine bef aft h1 h2
    rw [processLine_extinf_some st rawLine bef aft h1 h2]
  · intro count c1
    simp only [normName, nameFallbackSpec]
    split_ifs <;> simp_all

/-- Witness for C6 on the spec's placeholder-name scenario: the provisional
name `"Channel 5"` is replaced by the extracted `tvg-name` value. -/
theorem name_normalization_chain_witness :
    (processLine { channels := [], current := none, diags := [] }
        "#EXTINF:-1 tvg-name=\"Real Name\",Channel 5").current =
      some (normName 0 (extinfBase "#EXTINF:-1 tvg-name=\"Real Name\",Channel 5"
        ("-1 tvg-name=\"Real Name\"".data) ("Channel 5".data))) ∧
    (normName 0 (extinfBase "#EXTINF:-1 tvg-name=\"Real Name\",Channel 5"
        ("-1 tvg-name=\"Real Name\"".data) ("Channel 5".data))).name =
      nameFallbackSpec "Channel 5" "Real Name" 0 ∧
    nameFallbackSpec "Channel 5" "Real Name" 0 = "Real Name" := by
  have h1 := name_normalization_chain.1 { channels := [], current := none, diags := [] }
    "#EXTINF:-1 tvg-name=\"Real Name\",Channel 5"
    ("-1 tvg-name=\"Real Name\"".data) ("Channel 5".data) (by decide) (by decide)
  have h2 := name_normalization_chain.2 0
    (extinfBase "#EXTINF:-1 tvg-name=\"Real Name\",Channel 5"
      ("-1 tvg-name=\"Real Name\"".data) ("Channel 5".data))
  exact ⟨h1, h2.trans (by decide), by decide⟩

/-- Claim C9: attribute keys are lower-cased before comparison, the four
recognized keys assign their field, and any other key leaves the channel
entirely unchanged. -/
theorem attr_key_case_insensitive :
    (∀ (c : PendingChannel) (k k' v : String), lowerStr k = lowerStr k' →
        applyAttr c (k, v) = applyAttr c (k', v)) ∧
    (∀ (c : PendingChannel) (k v : String),
        lowerStr k ≠ "tvg-id" → lowerStr k ≠ "tvg-name" → lowerStr k ≠ "tvg-logo" →
        lowerStr k ≠ "group-title" → applyAttr c (k, v) = c) ∧
    (∀ (c : PendingChannel) (k v : String), lowerStr k = "tvg-id" →
        applyAttr c (k, v) = { c with tvgId := v }) ∧
    (∀ (c : PendingChannel) (k v : String), lowerStr k = "tvg-name" →
        applyAttr c (k, v) = { c with tvgName := v }) ∧
    (∀ (c : PendingChannel) (k v : String), lowerStr k = "tvg-logo" →
        applyAttr c (k, v) = { c with logo := v }) ∧
    (∀ (c : PendingChannel) (k v : String), lowerStr k = "group-title" →
        applyAttr c (k, v) = { c with group := v }) := by
  refine ⟨?_, ?_, ?_, ?_, ?_, ?_⟩
  · intro c k k' v h
    simp only [applyAttr, h]
  · intro c k v h1 h2 h3 h4
    simp [applyAttr, h1, h2, h3, h4]
  · intro c k v h
    simp [applyAttr, h]
  · intro c k v h
    simp [applyAttr, h]
  · intro c k v h
    simp [applyAttr, h]
  · intro c k v h
    simp [applyAttr, h]

/-- Witness for C9: upper-case and lower-case spellings of `tvg-id` agree,
an unknown key is a no-op, and each recognized key reaches its field. -/
theorem attr_key_case_insensitive_witness :
    applyAttr { name := "", tvgId := "", tvgName := "", logo := "", group := "",
                url := "", rawExtInf := "" } ("TVG-ID", "x") =
      applyAttr { name := "", tvgId := "", tvgName := "", logo := "", group := "",
                  url := "", rawExtInf := "" } ("tvg-id", "x") ∧
    applyAttr { name := "", tvgId := "", tvgName := "", logo := "", group := "",
                url := "", rawExtInf := "" } ("catchup", "1") =
      { name := "", tvgId := "", tvgName := "", logo := "", group := "",
        url := "", rawExtInf := "" } ∧
    applyAttr { name := "", tvgId := "", tvgName := "", logo := "", group := "",
                url := "", rawExtInf := "" } ("TVG-ID", "x") =
      { name := "", tvgId := "x", tvgName := "", logo := "", group := "",
        url := "", rawExtInf := "" } ∧
    applyAttr { name := "", tvgId := "", tvgName := "", logo := "", group := "",
                url := "", rawExtInf := "" } ("Tvg-Name", "y") =
      { name := "", tvgId := "", tvgName := "y", logo := "", group := "",
        url := "", rawExtInf := "" } ∧
    applyAttr { name := "", tvgId := "", tvgName := "", logo := "", group := "",
                url := "", rawExtInf := "" } ("TVG-LOGO", "z") =
      { name := "", tvgId := "", tvgName := "", logo := "z", group := "",
        url := "", rawExtInf := "" } ∧
    applyAttr { name := "", tvgId := "", tvgName := "", logo := "", group := "",
                url := "", rawExtInf := "" } ("GROUP-title", "g") =
      { name := "", tvgId := "", tvgName := "", logo := "", group := "g",
        url := "", rawExtInf := "" } := by
  refine ⟨attr_key_case_insensitive.1 _ "TVG-ID" "tvg-id" "x" (by decide),
    attr_key_case_insensitive.2.1 _ "catchup" "1"
      (by decide) (by decide) (by decide) (by decide),
    attr_key_case_insensitive.2.2.1 _ "TVG-ID" "x" (by decide),
    attr_key_case_insensitive.2.2.2.1 _ "Tvg-Name" "y" (by decide),
    attr_key_case_insensitive.2.2.2.2.1 _ "TVG-LOGO" "z" (by decide),
    attr_key_case_insensitive.2.2.2.2.2 _ "GROUP-title" "g" (by decide)⟩

/-- Claim C10: when a recognized key occurs several times in one directive's
attribute list, the value of the last (rightmost) occurrence is the one
assigned to the corresponding field. -/
theorem last_attr_occurrence_wins (c : PendingChannel) (attrs : List (String × String)) :
    (applyAttrs c attrs).tvgId = (lastValueFor "tvg-id" attrs).getD c.tvgId ∧
    (applyAttrs c attrs).tvgName = (lastValueFor "tvg-name" attrs).getD c.tvgName ∧
    (applyAttrs c attrs).logo = (lastValueFor "tvg-logo" attrs).getD c.logo ∧
    (applyAttrs c attrs).group = (lastValueFor "group-title" attrs).getD c.group := by
  induction attrs generalizing c with
  | nil => exact ⟨rfl, rfl, rfl, rfl⟩
  | cons kv rest ih =>
      obtain ⟨k, v⟩ := kv
      have e : applyAttrs c ((k, v) :: rest) = applyAttrs (applyAttr c (k, v)) rest := rfl
      have h := ih (applyAttr c (k, v))
      refine ⟨?_, ?_, ?_, ?_⟩
      · rw [e, h.1]
        simp only [lastValueFor]
        cases hl : lastValueFor "tvg-id" rest with
        | some w => simp
        | none =>
            by_cases hk : lowerStr k = "tvg-id" <;> simp [hk, applyAttr_tvgId]
      · rw [e, h.2.1]
        simp only [lastValueFor]
        cases hl : lastValueFor "tvg-name" rest with
        | some w => simp
        | none =>
            by_cases hk : lowerStr k = "tvg-name" <;> simp [hk, applyAttr_tvgName]
      · rw [e, h.2.2.1]
        simp only [lastValueFor]
        cases hl : lastValueFor "tvg-logo" rest with
        | some w => simp
        | none =>
            by_cases hk : lowerStr k = "tvg-logo" <;> simp [hk, applyAttr_logo]
      · rw [e, h.2.2.2]
        simp only [lastValueFor]
        cases hl : lastValueFor "group-title" rest with
        | some w => simp
        | none =>
            by_cases hk : lowerStr k = "group-title" <;> simp [hk, applyAttr_group]

theorem splitNlAux_ne_nil (cs acc : List Char) : splitNlAux cs acc ≠ [] := by
  induction cs generalizing acc with
  | nil => simp [splitNlAux]
  | cons c rest ih =>
      simp only [splitNlAux]
      by_cases h : c = '\n'
      · simp [h]
      · simpa [h] using ih (c :: acc)

theorem splitLines_ne_nil (s : String) : splitLines s ≠ [] :=
  splitNlAux_ne_nil s.data []

theorem processLine_channels_spec (st : ParseState) (rawLine : String) :
    (processLine st rawLine).channels = st.channels ∨
    ∃ x : Channel, x.url = trimStr rawLine ∧
      (processLine st rawLine).channels = st.channels ++ [x] := by
  cases h1 : startsWithStr (trimStr rawLine) "#EXTINF:" with
  | true =>
      cases h2 : splitAtLastComma (trimStr (dropStr 8 (trimStr rawLine))).data with
      | none =>
          rw [processLine_extinf_none st rawLine h1 h2]
          exact Or.inl rfl
      | some p =>
          obtain ⟨bef, aft⟩ := p
          rw [processLine_extinf_some st rawLine bef aft h1 h2]
          exact Or.inl rfl
  | false =>
      cases hcur : st.current with
      | some c =>
          cases hh : startsWithStr (trimStr rawLine) "#" with
          | true =>
              by_cases hm : trimStr rawLine = "#EXTM3U"
              · rw [processLine_pending_kept st c rawLine hcur (Or.inr hm)]; exact Or.inl rfl
              · by_cases hurl : c.url = ""
                · rw [processLine_pending_directive st c rawLine hcur h1 hh hm hurl]
                  exact Or.inl rfl
                · rw [processLine_pending_directive_hasUrl st c rawLine hcur h1 hh hurl]
                  exact Or.inl rfl
          | false =>
              by_cases hbl : trimStr rawLine = ""
              · rw [processLine_pending_kept st c rawLine hcur (Or.inl hbl)]; exact Or.inl rfl
              · rw [processLine_pending_content st c rawLine hcur hbl hh]
                exact Or.inr ⟨finalize c (trimStr rawLine), rfl, rfl⟩
      | none =>
          cases hh : startsWithStr (trimStr rawLine) "#" with
          | true =>
              rw [processLine_idle_noncontent st rawLine hcur h1 (Or.inr hh)]
              exact Or.inl rfl
          | false =>
              by_cases hbl : trimStr rawLine = ""
              · rw [processLine_idle_noncontent st rawLine hcur h1 (Or.inl hbl)]
                exact Or.inl rfl
              · rw [processLine_idle_content st rawLine hcur hbl hh]
                exact Or.inr ⟨basicEntry st.channels.length (trimStr rawLine), rfl, rfl⟩

/-- Claim C2: each loop iteration appends at most one record, and a record
appended at a line carries exactly that (trimmed) line as its `url`, so the
output sequence is ordered by the position of the URL/content lines that
completed the records; the returned list is the fold's accumulated
channel list. -/
theorem output_order_is_completion_order (st : ParseState) (rawLine : String) (s : String) :
    (processLine st rawLine).channels = st.channels ++ emittedAt st rawLine ∧
    (emittedAt st rawLine).length ≤ 1 ∧
    (emittedAt st rawLine).all (fun c => c.url == trimStr rawLine) = true ∧
    (parseM3U s).1 = (finState s).channels := by
  rcases processLine_channels_spec st rawLine with h | ⟨x, hx, h⟩
  · have he : emittedAt st rawLine = [] := by
      unfold emittedAt
      rw [h, List.drop_length]
    exact ⟨by rw [h, he, List.append_nil], by simp [he], by simp [he], rfl⟩
  · have he : emittedAt st rawLine = [x] := by
      unfold emittedAt
      rw [h, List.drop_left]
    exact ⟨by rw [h, he], by simp [he], by simp [he, hx], rfl⟩

/-- Claim C4 (counterexample): in the input `"\n#EXTM3U"` the first
non-blank line is exactly the header marker, yet the missing-header
diagnostic is emitted, because the source only inspects line index 0. -/
theorem missingHeader_despite_leading_blank :
    ((splitLines "\n#EXTM3U").filter (fun l => trimStr l != "")).head? = some "#EXTM3U" ∧
    Diag.missingHeader ∈ (parseM3U "\n#EXTM3U").2 := ⟨by decide, by decide⟩

/-- Claim C4 (amended): the missing-header diagnostic is emitted if and only
if the document's first line (index 0), after trimming, does not start with
`#EXTM3U` — so leading blank lines before the header do trigger the
diagnostic, and parsing proceeds regardless. -/
theorem missingHeader_iff (s : String) :
    Diag.missingHeader ∈ (parseM3U s).2 ↔
    startsWithStr (trimStr ((splitLines s).headD "")) "#EXTM3U" = false := by
  obtain ⟨ds, hds, hn⟩ := foldl_diags_mono (splitLines s) (initState (splitLines s))
  have hfin : (finState s).diags = initDiags (splitLines s) ++ ds := hds
  have hmem : Diag.missingHeader ∈ (parseM3U s).2 ↔
      Diag.missingHeader ∈ initDiags (splitLines s) := by
    cases hc : (finState s).current with
    | none =>
        by_cases hz : (finState s).channels = [] ∧ 1 < (splitLines s).length
        · simp [parseM3U, hc, hz, hfin, hn]
        · simp [parseM3U, hc, hz, hfin, hn]
    | some c =>
        by_cases hu : c.url = ""
        · by_cases hz : (finState s).channels = [] ∧ 1 < (splitLines s).length
          · simp [parseM3U, hc, hu, hz, hfin, hn]
          · simp [parseM3U, hc, hu, hz, hfin, hn]
        · by_cases hz : (finState s).channels = [] ∧ 1 < (splitLines s).length
          · simp [parseM3U, hc, hu, hz, hfin, hn]
          · simp [parseM3U, hc, hu, hz, hfin, hn]
  rw [hmem]
  cases hl : splitLines s with
  | nil => exact absurd hl (splitLines_ne_nil s)
  | cons l0 rest =>
      simp only [List.headD_cons]
      by_cases h0 : l0 = ""
      · subst h0
        have e : startsWithStr (trimStr "") "#EXTM3U" = false := rfl
        simp [initDiags, e]
      · cases hsw : startsWithStr (trimStr l0) "#EXTM3U" with
        | true => simp [initDiags, h0, hsw]
        | false => simp [initDiags, h0, hsw]

/-- Claim C7: a pending channel (which while pending always has an empty
`url`) is discarded, with a diagnostic and with nothing appended to the
output, exactly when a new metadata directive arrives, when a non-header
directive/comment line arrives, or when input ends; a blank line or the
header keeps it, and a content line finalizes it into the output instead. -/
theorem pending_discard_behavior :
    (∀ (st : ParseState) (c : PendingChannel) (rawLine : String),
        st.current = some c → c.url = "" →
        (startsWithStr (trimStr rawLine) "#EXTINF:" = true →
            (processLine st rawLine).channels = st.channels ∧
            Diag.discardingPrev c.name ∈ (processLine st rawLine).diags) ∧
        (startsWithStr (trimStr rawLine) "#EXTINF:" = false →
            startsWithStr (trimStr rawLine) "#" = true →
            trimStr rawLine ≠ "#EXTM3U" →
            (processLine st rawLine).current = none ∧
            (processLine st rawLine).channels = st.channels ∧
            Diag.directiveBeforeUrl (trimStr rawLine) c.name ∈ (processLine st rawLine).diags) ∧
        (trimStr rawLine = "" ∨ trimStr rawLine = "#EXTM3U" →
            processLine st rawLine = st) ∧
        (trimStr rawLine ≠ "" → startsWithStr (trimStr rawLine) "#" = false →
            (processLine st rawLine).channels = st.channels ++ [finalize c (trimStr rawLine)] ∧
            (processLine st rawLine).current = none)) ∧
    (∀ (s : String) (c : PendingChannel),
        (finState s).current = some c → c.url = "" →
        (parseM3U s).1 = (finState s).channels ∧
        Diag.lastChannelMissingUrl c.rawExtInf ∈ (parseM3U s).2) := by
  constructor
  · intro st c rawLine hcur hurl
    refine ⟨?_, ?_, processLine_pending_kept st c rawLine hcur, ?_⟩
    · intro h1
      cases h2 : splitAtLastComma (trimStr (dropStr 8 (trimStr rawLine))).data with
      | none =>
          rw [processLine_extinf_none st rawLine h1 h2]
          exact ⟨rfl, by simp [discardDiags, hcur, hurl]⟩
      | some p =>
          obtain ⟨bef, aft⟩ := p
          rw [processLine_extinf_some st rawLine bef aft h1 h2]
          exact ⟨rfl, by simp [discardDiags, hcur, hurl]⟩
    · intro h1 hh hm
      rw [processLine_pending_directive st c rawLine hcur h1 hh hm hurl]
      exact ⟨rfl, rfl, by simp⟩
    · intro hne hnh
      rw [processLine_pending_content st c rawLine hcur hne hnh]
      exact ⟨rfl, rfl⟩
  · intro s c hcur hurl
    refine ⟨rfl, ?_⟩
    by_cases hz : (finState s).channels = [] ∧ 1 < (splitLines s).length
    · simp [parseM3U, hcur, hurl, hz]
    · simp [parseM3U, hcur, hurl, hz]

/-- Witness for C7: a pending channel is discarded on a non-header directive
line with a diagnostic and no output, and a pending channel left at end of
input triggers the final diagnostic. -/
theorem pending_discard_behavior_witness :
    (processLine
        { channels := [],
          current := some { name := "A", tvgId := "", tvgName := "", logo := "",
                            group := "", url := "", rawExtInf := "#EXTINF:-1,A" },
          diags := [] } "#EXTGRP:news").current = none ∧
    (processLine
        { channels := [],
          current := some { name := "A", tvgId := "", tvgName := "", logo := "",
                            group := "", url := "", rawExtInf := "#EXTINF:-1,A" },
          diags := [] } "#EXTGRP:news").channels = [] ∧
    Diag.directiveBeforeUrl "#EXTGRP:news" "A" ∈
      (processLine
          { channels := [],
            current := some { name := "A", tvgId := "", tvgName := "", logo := "",
                              group := "", url := "", rawExtInf := "#EXTINF:-1,A" },
            diags := [] } "#EXTGRP:news").diags ∧
    Diag.lastChannelMissingUrl "#EXTINF:-1,A" ∈ (parseM3U "#EXTM3U\n#EXTINF:-1,A").2 := by
  have h := (pending_discard_behavior.1
    { channels := [],
      current := some { name := "A", tvgId := "", tvgName := "", logo := "",
                        group := "", url := "", rawExtInf := "#EXTINF:-1,A" },
      diags := [] }
    { name := "A", tvgId := "", tvgName := "", logo := "",
      group := "", url := "", rawExtInf := "#EXTINF:-1,A" }
    "#EXTGRP:news" rfl rfl).2.1 (by decide) (by decide) (by decide)
  have h2 := (pending_discard_behavior.2 "#EXTM3U\n#EXTINF:-1,A"
    { name := "A", tvgId := "", tvgName := "", logo := "",
      group := "", url := "", rawExtInf := "#EXTINF:-1,A" }
    (by decide) rfl).2
  exact ⟨h.1, h.2.1, h.2.2, h2⟩

end M3U
